import Mathlib

/-!
# learn-C-: array traversal and pointer indirection

A shallow embedding of the two programs of the repository,
`STL/array.cpp` and `pointers/pointers.cpp`, with the properties of their
specification stated and proved over it.

Modelling conventions, shared by both programs.

* Standard output is the list of integers written so far; every
  `cout << v << endl` appends one integer, which is one line of text.
  `render` gives the text itself.
* A pointer designates an element of an object by its offset from the first
  element, as in the C++ abstract machine. Forming a pointer outside
  `[0, length]` and reading through a pointer outside `[0, length)` have no
  defined behaviour; the model reports them instead of continuing.
* An `int` is 32 bits wide. The only `int` the programs compute is `size`,
  initialised from a `size_t` quotient: the model narrows that quotient to 32
  bits, so `size` is the element count exactly when the count is at most
  `INT_MAX`. The other `int` values are literals of the source, stored and
  printed as they are.
-/

/-- Text of the standard output: each integer in decimal on a line of its own. -/
def render (out : List Int) : String :=
  String.join (out.map (fun v => toString v ++ "\n"))

namespace ArrayTraversalDemo

/-- Outcome of running a piece of the program with a bound on the number of
loop-condition evaluations. -/
inductive Result (α : Type) where
  | done (a : α)
  | undefined
  | outOfFuel
  deriving DecidableEq

/-- Value of `sizeof(int)` on the usual ABIs. -/
def sizeofInt : Nat := 4

/-- Value of `sizeof(arr)` for an array whose elements are `w` bytes wide. -/
def sizeofArray (w : Nat) (arr : List Int) : Nat := arr.length * w

/-- Value of `sizeof(arr[0])` for an array whose elements are `w` bytes wide. -/
def sizeofElem (w : Nat) (_arr : List Int) : Nat := w

/-- The expression `sizeof(arr) / sizeof(arr[0])`. -/
def elementCount (w : Nat) (arr : List Int) : Nat :=
  sizeofArray w arr / sizeofElem w arr

/-- Largest value of the 32-bit `int`. -/
def INT_MAX : Nat := 2147483647

/-- Conversion of a `size_t` value to the 32-bit `int`: the value congruent to it
modulo 2^32 in the range from -2^31 to 2^31 - 1. -/
def narrowToInt (n : Nat) : Int :=
  ((n : Int) + 2147483648) % 4294967296 - 2147483648

/-- The value of `int size = sizeof(arr) / sizeof(arr[0]);` for an array of
`int`: the quotient, narrowed to `int`. -/
def size (arr : List Int) : Int := narrowToInt (elementCount sizeofInt arr)

/-- Pointer arithmetic `p + k` inside the array `arr`: defined when the result
is an element of the array or the position one past the last. -/
def ptrAdd (arr : List Int) (p : Nat) (k : Int) : Option Nat :=
  if 0 ≤ (p : Int) + k ∧ (p : Int) + k ≤ (arr.length : Int) then
    some ((p : Int) + k).toNat
  else none

/-- Indirection `*p` inside the array `arr`: defined on the elements only. -/
def deref (arr : List Int) (p : Nat) : Option Int := arr[p]?

/-- Pointer `std::begin(arr)`: the first element. -/
def arrBegin (_arr : List Int) : Nat := 0

/-- Pointer `std::end(arr)`: one past the last element, from the declared length. -/
def arrEnd (arr : List Int) : Nat := arr.length

/-- State of a traversal loop. `cursor` is the loop variable (`ptr`, `it`) and
`out` the standard output. `derefs` and `iterations` are bookkeeping: the
offsets read through so far, and the number of times the body has run. -/
structure LoopState where
  cursor : Nat
  out : List Int
  derefs : List Nat
  iterations : Nat
  deriving DecidableEq

/-- State in which a loop is entered with its cursor at `start`. -/
def LoopState.enter (start : Nat) (out : List Int) : LoopState :=
  ⟨start, out, [], 0⟩

/-- Body `cout << *cursor << endl;` followed by the increment of the cursor
(`ptr++` in way 1, `++it` in way 2: as statements both add one to the cursor). -/
def bodyAndStep (arr : List Int) (s : LoopState) : Option LoopState :=
  match deref arr s.cursor with
  | none => none
  | some v =>
    match ptrAdd arr s.cursor 1 with
    | none => none
    | some next =>
      some ⟨next, s.out ++ [v], s.derefs ++ [s.cursor], s.iterations + 1⟩

/-- Way 1: `for (int *ptr = arr1; ptr < arr1 + size; ptr++) cout << *ptr << endl;`
from the state `s`, with `fuel` evaluations of the condition allowed. -/
def way1Loop (arr : List Int) (size : Int) : Nat → LoopState → Result LoopState
  | 0, _ => .outOfFuel
  | fuel + 1, s =>
    match ptrAdd arr 0 size with
    | none => .undefined
    | some stop =>
      if s.cursor < stop then
        match bodyAndStep arr s with
        | none => .undefined
        | some s' => way1Loop arr size fuel s'
      else .done s

/-- Way 2: `for (auto it = begin(arr2); it != end(arr2); ++it) cout << *it << endl;`
from the state `s`, with `fuel` evaluations of the condition allowed. -/
def way2Loop (arr : List Int) : Nat → LoopState → Result LoopState
  | 0, _ => .outOfFuel
  | fuel + 1, s =>
    if s.cursor ≠ arrEnd arr then
      match bodyAndStep arr s with
      | none => .undefined
      | some s' => way2Loop arr fuel s'
    else .done s

/-- Way 1 over `arr`, with the count taken from the storage sizes as in the
source and the cursor starting at the first element. -/
def way1 (arr : List Int) (fuel : Nat) (out : List Int) : Result LoopState :=
  way1Loop arr (size arr) fuel (LoopState.enter 0 out)

/-- Way 2 over `arr`, the cursor starting at `begin(arr)`. -/
def way2 (arr : List Int) (fuel : Nat) (out : List Int) : Result LoopState :=
  way2Loop arr fuel (LoopState.enter (arrBegin arr) out)

/-- Array `arr1` of `main`. -/
def arr1 : List Int := [1, 9, 5, 3, 4]

/-- Array `arr2` of `main`. -/
def arr2 : List Int := [10, 90, 50, 30, 40]

/-- The program `STL/array.cpp`: exit status and standard output. -/
def main (fuel : Nat) : Result (Int × List Int) :=
  match way1 arr1 fuel [] with
  | .done s1 =>
    match way2 arr2 fuel s1.out with
    | .done s2 => .done (0, s2.out)
    | .undefined => .undefined
    | .outOfFuel => .outOfFuel
  | .undefined => .undefined
  | .outOfFuel => .outOfFuel

/-! ### States used to describe the loops -/

/-- State reached from `s` after `k` more iterations over `arr`. -/
def LoopState.advance (arr : List Int) (s : LoopState) (k : Nat) : LoopState :=
  ⟨s.cursor + k, s.out ++ (arr.drop s.cursor).take k,
    s.derefs ++ List.range' s.cursor k, s.iterations + k⟩

/-- State in which a traversal of the whole of `arr` ends. -/
def LoopState.final (arr : List Int) (out : List Int) : LoopState :=
  ⟨arr.length, out ++ arr, List.range arr.length, arr.length⟩

end ArrayTraversalDemo

namespace PointerIndirectionDemo

/-- Pointer: an object of the memory and the offset of an element in it. -/
structure Ptr where
  block : Nat
  offset : Nat
  deriving DecidableEq

/-- Content of a memory cell. -/
inductive Val where
  | undef
  | int (v : Int)
  | ptr (p : Ptr)
  deriving DecidableEq

/-- Memory (one list of cells per object, in order of allocation) and
standard output. -/
structure State where
  mem : List (List Val)
  out : List Int
  deriving DecidableEq

/-- State in which the program starts. -/
def State.init : State := ⟨[], []⟩

/-- Definition of a local variable with the given cells: a new object. -/
def alloc (cells : List Val) (s : State) : Ptr × State :=
  (⟨s.mem.length, 0⟩, { s with mem := s.mem ++ [cells] })

/-- End of a function whose first local is object `mark`: its locals die. -/
def leave (mark : Nat) (s : State) : State :=
  { s with mem := s.mem.take mark }

/-- Content of the cell `p` designates, when there is one. -/
def load (s : State) (p : Ptr) : Option Val :=
  match s.mem[p.block]? with
  | none => none
  | some cells => cells[p.offset]?

/-- Assignment of `v` to the cell `p` designates, when there is one. -/
def store (s : State) (p : Ptr) (v : Val) : Option State :=
  match s.mem[p.block]? with
  | none => none
  | some cells =>
    if p.offset < cells.length then
      some { s with mem := s.mem.set p.block (cells.set p.offset v) }
    else none

/-- Read of an `int` through `p`. -/
def loadInt (s : State) (p : Ptr) : Option Int :=
  match load s p with
  | some (.int v) => some v
  | _ => none

/-- Read of a pointer through `p`. -/
def loadPtr (s : State) (p : Ptr) : Option Ptr :=
  match load s p with
  | some (.ptr q) => some q
  | _ => none

/-- Pointer arithmetic `p + k`: defined when the result is an element of the
object of `p` or the position one past its last element. -/
def ptrAdd (s : State) (p : Ptr) (k : Int) : Option Ptr :=
  match s.mem[p.block]? with
  | none => none
  | some cells =>
    if 0 ≤ (p.offset : Int) + k ∧ (p.offset : Int) + k ≤ (cells.length : Int) then
      some ⟨p.block, ((p.offset : Int) + k).toNat⟩
    else none

/-- Statement `cout << v << endl`. -/
def emit (v : Int) (s : State) : State :=
  { s with out := s.out ++ [v] }

/-- Locals of `seePointer`. -/
structure Chain where
  x : Ptr
  p : Ptr
  q : Ptr
  r : Ptr
  deriving DecidableEq

/-- Definitions `int x = 10; int *p = &x; int **q = &p; int ***r = &q;` -/
def seePointerLocals (s : State) : Chain × State :=
  let (x, s) := alloc [.int 10] s
  let (p, s) := alloc [.ptr x] s
  let (q, s) := alloc [.ptr p] s
  let (r, s) := alloc [.ptr q] s
  (⟨x, p, q, r⟩, s)

/-- The location `*p` for `int *p` stored at `p`: the pointer read from it. -/
def deref1 (s : State) (p : Ptr) : Option Ptr := loadPtr s p

/-- The location `**q`. -/
def deref2 (s : State) (q : Ptr) : Option Ptr :=
  (loadPtr s q).bind (loadPtr s)

/-- The location `***r`. -/
def deref3 (s : State) (r : Ptr) : Option Ptr :=
  ((loadPtr s r).bind (loadPtr s)).bind (loadPtr s)

/-- Statement `***r = 20;` -/
def seePointerAssign (c : Chain) (s : State) : Option State :=
  (deref3 s c.r).bind (fun x => store s x (.int 20))

/-- Statement `cout << *(*(*r)) << endl;` -/
def seePointerPrint (c : Chain) (s : State) : Option State :=
  ((deref3 s c.r).bind (loadInt s)).map (fun v => emit v s)

/-- The function `seePointer`. -/
def seePointer (s : State) : Option State :=
  let mark := s.mem.length
  let (c, s) := seePointerLocals s
  (((seePointerAssign c s).bind (seePointerPrint c))).map (leave mark)

/-- The function `callByReference`: `*a = 100;` -/
def callByReference (a : Ptr) (s : State) : Option State :=
  store s a (.int 100)

/-- Definitions of `int arr[]`, holding 1, 2, 3, 4, 5, and of `int *p`, not
initialised: the pointers to `arr` and `p`, and the state. -/
def seeArraysLocals (s : State) : (Ptr × Ptr) × State :=
  let (arr, s) := alloc [.int 1, .int 2, .int 3, .int 4, .int 5] s
  let (p, s) := alloc [.undef] s
  ((arr, p), s)

/-- Statement `p = &arr[0];` where `arr[0]` is `*(arr + 0)`. -/
def seeArraysAssign (arr p : Ptr) (s : State) : Option State :=
  (ptrAdd s arr 0).bind (fun a0 => store s p (.ptr a0))

/-- Statement `cout << *(arr + 0) << endl;` -/
def seeArraysPrint (arr : Ptr) (s : State) : Option State :=
  ((ptrAdd s arr 0).bind (loadInt s)).map (fun v => emit v s)

/-- The function `seeArrays`. -/
def seeArrays (s : State) : Option State :=
  let mark := s.mem.length
  let ((arr, p), s) := seeArraysLocals s
  ((seeArraysAssign arr p s).bind (seeArraysPrint arr)).map (leave mark)

/-- The program `pointers/pointers.cpp`: exit status and standard output. -/
def main : Option (Int × List Int) :=
  let (a, s) := alloc [.int 1] State.init
  (((callByReference a s).bind
      (fun s => (loadInt s a).map (fun v => emit v s))).bind
      seeArrays).map (fun s => (0, s.out))

end PointerIndirectionDemo

namespace ArrayTraversalDemo

/-! ## Arithmetic of sizes and pointers -/

theorem elementCount_pos_width (w : Nat) (arr : List Int) (hw : 0 < w) :
    elementCount w arr = arr.length := by
  unfold elementCount sizeofArray sizeofElem
  exact Nat.mul_div_cancel _ hw

theorem size_eq_length (arr : List Int) (hfit : arr.length ≤ INT_MAX) :
    size arr = (arr.length : Int) := by
  unfold INT_MAX at hfit
  unfold size narrowToInt
  rw [elementCount_pos_width sizeofInt arr (by decide)]
  omega

/-- Value of `size` for an array of more than `INT_MAX` and fewer than 2^32
elements: the count less 2^32, a negative number. -/
theorem size_wrapped (arr : List Int) (h1 : INT_MAX < arr.length)
    (h2 : arr.length < 4294967296) :
    size arr = (arr.length : Int) - 4294967296 := by
  unfold INT_MAX at h1
  unfold size narrowToInt
  rw [elementCount_pos_width sizeofInt arr (by decide)]
  omega

theorem ptrAdd_base_negative (arr : List Int) (k : Int) (hk : k < 0) :
    ptrAdd arr 0 k = none := by
  unfold ptrAdd
  rw [if_neg]
  omega

theorem ptrAdd_base_length (arr : List Int) :
    ptrAdd arr 0 (arr.length : Int) = some arr.length := by
  simp [ptrAdd]

theorem ptrAdd_one (arr : List Int) (c : Nat) (h : c < arr.length) :
    ptrAdd arr c 1 = some (c + 1) := by
  unfold ptrAdd
  have h1 : 0 ≤ (c : Int) + 1 ∧ (c : Int) + 1 ≤ (arr.length : Int) := by omega
  rw [if_pos h1]
  congr 1

theorem bodyAndStep_inside (arr : List Int) (s : LoopState) (h : s.cursor < arr.length) :
    bodyAndStep arr s =
      some ⟨s.cursor + 1, s.out ++ [arr[s.cursor]], s.derefs ++ [s.cursor],
        s.iterations + 1⟩ := by
  unfold bodyAndStep deref
  rw [List.getElem?_eq_getElem h]
  simp only [ptrAdd_one arr s.cursor h]

theorem advance_zero (arr : List Int) (s : LoopState) : s.advance arr 0 = s := by
  cases s
  simp [LoopState.advance]

theorem advance_succ (arr : List Int) (s : LoopState) (k : Nat)
    (h : s.cursor < arr.length) :
    (LoopState.advance arr ⟨s.cursor + 1, s.out ++ [arr[s.cursor]],
        s.derefs ++ [s.cursor], s.iterations + 1⟩ k) = s.advance arr (k + 1) := by
  simp only [LoopState.advance, LoopState.mk.injEq]
  refine ⟨by omega, ?_, ?_, by omega⟩
  · rw [List.drop_eq_getElem_cons h, List.take_succ_cons]
    simp
  · rw [List.range'_succ]
    simp

/-! ## The two loops, iteration by iteration -/

theorem way2Loop_advance (arr : List Int) :
    ∀ (k f : Nat) (s : LoopState), s.cursor + k ≤ arr.length →
      way2Loop arr (k + f) s = way2Loop arr f (s.advance arr k) := by
  intro k
  induction k with
  | zero =>
    intro f s _
    rw [advance_zero, Nat.zero_add]
  | succ k ih =>
    intro f s h
    have hc : s.cursor < arr.length := by omega
    have hne : s.cursor ≠ arrEnd arr := by unfold arrEnd; omega
    rw [show k + 1 + f = (k + f) + 1 by omega]
    conv_lhs => unfold way2Loop
    rw [if_pos hne, bodyAndStep_inside arr s hc]
    simp only
    rw [ih f _ (by simp only; omega), advance_succ arr s k hc]

theorem way1Loop_advance (arr : List Int) :
    ∀ (k f : Nat) (s : LoopState), s.cursor + k ≤ arr.length →
      way1Loop arr (arr.length : Int) (k + f) s
        = way1Loop arr (arr.length : Int) f (s.advance arr k) := by
  intro k
  induction k with
  | zero =>
    intro f s _
    rw [advance_zero, Nat.zero_add]
  | succ k ih =>
    intro f s h
    have hc : s.cursor < arr.length := by omega
    rw [show k + 1 + f = (k + f) + 1 by omega]
    conv_lhs => unfold way1Loop
    rw [ptrAdd_base_length]
    simp only
    rw [if_pos hc, bodyAndStep_inside arr s hc]
    simp only
    rw [ih f _ (by simp only; omega), advance_succ arr s k hc]

theorem way2Loop_exit (arr : List Int) (f : Nat) (s : LoopState)
    (h : s.cursor = arr.length) : way2Loop arr (f + 1) s = .done s := by
  unfold way2Loop
  simp [arrEnd, h]

theorem way1Loop_exit (arr : List Int) (f : Nat) (s : LoopState)
    (h : s.cursor = arr.length) :
    way1Loop arr (arr.length : Int) (f + 1) s = .done s := by
  unfold way1Loop
  rw [ptrAdd_base_length]
  simp [h]

theorem way1Loop_zero (arr : List Int) (sz : Int) (s : LoopState) :
    way1Loop arr sz 0 s = .outOfFuel := by
  unfold way1Loop
  rfl

theorem way2Loop_zero (arr : List Int) (s : LoopState) :
    way2Loop arr 0 s = .outOfFuel := by
  unfold way2Loop
  rfl

theorem enter_advance (arr : List Int) (out : List Int) (k : Nat) :
    (LoopState.enter 0 out).advance arr k
      = ⟨k, out ++ arr.take k, List.range k, k⟩ := by
  simp [LoopState.enter, LoopState.advance, List.range_eq_range']

theorem enter_advance_length (arr : List Int) (out : List Int) :
    (LoopState.enter 0 out).advance arr arr.length = LoopState.final arr out := by
  rw [enter_advance]
  simp [LoopState.final]

theorem way1Loop_done (arr : List Int) (out : List Int) (fuel : Nat)
    (h : arr.length < fuel) :
    way1Loop arr (arr.length : Int) fuel (LoopState.enter 0 out)
      = .done (LoopState.final arr out) := by
  obtain ⟨f, rfl⟩ : ∃ f, fuel = arr.length + (f + 1) := ⟨fuel - arr.length - 1, by omega⟩
  rw [way1Loop_advance arr arr.length (f + 1) _ (by simp [LoopState.enter]),
    enter_advance_length, way1Loop_exit arr f _ rfl]

theorem way2Loop_done (arr : List Int) (out : List Int) (fuel : Nat)
    (h : arr.length < fuel) :
    way2Loop arr fuel (LoopState.enter 0 out) = .done (LoopState.final arr out) := by
  obtain ⟨f, rfl⟩ : ∃ f, fuel = arr.length + (f + 1) := ⟨fuel - arr.length - 1, by omega⟩
  rw [way2Loop_advance arr arr.length (f + 1) _ (by simp [LoopState.enter]),
    enter_advance_length, way2Loop_exit arr f _ rfl]

theorem way1Loop_short (arr : List Int) (out : List Int) (fuel : Nat)
    (h : fuel ≤ arr.length) :
    way1Loop arr (arr.length : Int) fuel (LoopState.enter 0 out) = .outOfFuel := by
  have := way1Loop_advance arr fuel 0 (LoopState.enter 0 out) (by simp [LoopState.enter]; exact h)
  rw [Nat.add_zero] at this
  rw [this, way1Loop_zero]

theorem way2Loop_short (arr : List Int) (out : List Int) (fuel : Nat)
    (h : fuel ≤ arr.length) :
    way2Loop arr fuel (LoopState.enter 0 out) = .outOfFuel := by
  have := way2Loop_advance arr fuel 0 (LoopState.enter 0 out) (by simp [LoopState.enter]; exact h)
  rw [Nat.add_zero] at this
  rw [this, way2Loop_zero]

theorem way1_done (arr : List Int) (out : List Int) (fuel : Nat)
    (hfit : arr.length ≤ INT_MAX) (h : arr.length < fuel) :
    way1 arr fuel out = .done (LoopState.final arr out) := by
  unfold way1
  rw [size_eq_length arr hfit, way1Loop_done arr out fuel h]

/-- Way 1 over an array of more than `INT_MAX` and fewer than 2^32 elements:
`arr + size` is a pointer before the array. -/
theorem way1_wrapped (arr : List Int) (out : List Int) (fuel : Nat)
    (h1 : INT_MAX < arr.length) (h2 : arr.length < 4294967296) :
    way1 arr (fuel + 1) out = .undefined := by
  have hneg : (arr.length : Int) - 4294967296 < 0 := by omega
  unfold way1
  rw [size_wrapped arr h1 h2]
  unfold way1Loop
  rw [ptrAdd_base_negative arr _ hneg]

theorem way2_done (arr : List Int) (out : List Int) (fuel : Nat) (h : arr.length < fuel) :
    way2 arr fuel out = .done (LoopState.final arr out) := by
  unfold way2 arrBegin
  rw [way2Loop_done arr out fuel h]

theorem way1_short (arr : List Int) (out : List Int) (fuel : Nat)
    (hfit : arr.length ≤ INT_MAX) (h : fuel ≤ arr.length) :
    way1 arr fuel out = .outOfFuel := by
  unfold way1
  rw [size_eq_length arr hfit, way1Loop_short arr out fuel h]

theorem way2_short (arr : List Int) (out : List Int) (fuel : Nat) (h : fuel ≤ arr.length) :
    way2 arr fuel out = .outOfFuel := by
  unfold way2 arrBegin
  rw [way2Loop_short arr out fuel h]

theorem range_lt (n : Nat) : ∀ i ∈ List.range n, i < n := by
  intro i hi
  exact List.mem_range.mp hi

/-! ## Properties of the specification -/

/-- C1: with enough fuel for its two loops, the program `STL/array.cpp` ends with
status 0 and its standard output is the ten lines 1, 9, 5, 3, 4, 10, 90, 50, 30,
40: the elements of `arr1` in index order, then those of `arr2`, nothing else. -/
theorem array_main_output (fuel : Nat) (h : 6 ≤ fuel) :
    main fuel = .done (0, [1, 9, 5, 3, 4, 10, 90, 50, 30, 40]) ∧
    ([1, 9, 5, 3, 4, 10, 90, 50, 30, 40] : List Int) = arr1 ++ arr2 ∧
    ([1, 9, 5, 3, 4, 10, 90, 50, 30, 40] : List Int).length = 10 ∧
    render [1, 9, 5, 3, 4, 10, 90, 50, 30, 40] = "1\n9\n5\n3\n4\n10\n90\n50\n30\n40\n" := by
  refine ⟨?_, by decide, by decide, by decide⟩
  have h1 : arr1.length < fuel := by
    have : arr1.length = 5 := rfl
    omega
  have h2 : arr2.length < fuel := by
    have : arr2.length = 5 := rfl
    omega
  unfold main
  rw [way1_done arr1 [] fuel (by decide) h1]
  simp only
  rw [way2_done arr2 _ fuel h2]
  rfl

theorem array_main_output_witness :
    6 ≤ 6 ∧ main 6 = .done (0, [1, 9, 5, 3, 4, 10, 90, 50, 30, 40]) :=
  ⟨by decide, (array_main_output 6 (by decide)).1⟩

/-- C4, amended: over the same sequence of at most `INT_MAX` elements, way 1
(cursor stepping up to `base + size`) and way 2 (`begin` up to the `end`
sentinel) give the same result for every amount of fuel, and with enough fuel
both finish having emitted the elements of the sequence in index order, in the
same number of iterations. -/
theorem way1_way2_same_output (arr : List Int) (out : List Int) (fuel : Nat)
    (hfit : arr.length ≤ INT_MAX) :
    way1 arr fuel out = way2 arr fuel out ∧
    (arr.length < fuel →
      way1 arr fuel out = .done ⟨arr.length, out ++ arr, List.range arr.length, arr.length⟩ ∧
      way2 arr fuel out = .done ⟨arr.length, out ++ arr, List.range arr.length, arr.length⟩) := by
  constructor
  · by_cases h : arr.length < fuel
    · rw [way1_done arr out fuel hfit h, way2_done arr out fuel h]
    · rw [way1_short arr out fuel hfit (by omega), way2_short arr out fuel (by omega)]
  · intro h
    exact ⟨way1_done arr out fuel hfit h, way2_done arr out fuel h⟩

theorem way1_way2_same_output_witness :
    ([7, -2, 7] : List Int).length ≤ INT_MAX ∧
    way1 [7, -2, 7] 4 [] = way2 [7, -2, 7] 4 [] ∧
    way1 [7, -2, 7] 4 [] = .done ⟨3, [7, -2, 7], [0, 1, 2], 3⟩ ∧
    way2 [7, -2, 7] 4 [] = .done ⟨3, [7, -2, 7], [0, 1, 2], 3⟩ :=
  ⟨by decide, (way1_way2_same_output [7, -2, 7] [] 4 (by decide)).1,
    (way1_way2_same_output [7, -2, 7] [] 4 (by decide)).2 (by decide)⟩

/-- C4 as stated fails over a sequence of 2147483653 elements: `size` is then
-2147483643, so way 1 forms a pointer before the array and emits nothing, while
way 2, given the fuel, emits all 2147483653 elements. -/
theorem way1_way2_differ_beyond_int_max :
    size (List.replicate 2147483653 0) = -2147483643 ∧
    way1 (List.replicate 2147483653 0) (2147483653 + 1) [] = .undefined ∧
    way2 (List.replicate 2147483653 0) (2147483653 + 1) []
      = .done ⟨2147483653, List.replicate 2147483653 0, List.range 2147483653,
          2147483653⟩ ∧
    way1 (List.replicate 2147483653 0) (2147483653 + 1) []
      ≠ way2 (List.replicate 2147483653 0) (2147483653 + 1) [] := by
  have hlen : (List.replicate 2147483653 (0 : Int)).length = 2147483653 :=
    List.length_replicate _ _
  have h1 : INT_MAX < (List.replicate 2147483653 (0 : Int)).length := by
    rw [hlen]
    decide
  have h2 : (List.replicate 2147483653 (0 : Int)).length < 4294967296 := by
    rw [hlen]
    decide
  have hw1 := way1_wrapped (List.replicate 2147483653 0) [] 2147483653 h1 h2
  have hw2 := way2_done (List.replicate 2147483653 0) [] (2147483653 + 1)
    (by rw [hlen]; exact Nat.lt_succ_self _)
  refine ⟨?_, hw1, ?_, ?_⟩
  · rw [size_wrapped _ h1 h2, hlen]
    rfl
  · rw [hw2]
    unfold LoopState.final
    rw [hlen, List.nil_append]
  · rw [hw1, hw2]
    intro h
    cases h

/-- C5: for a sequence of declared length `n` whose elements are `w > 0` bytes
wide, `sizeof(arr)` is `n * w`, `sizeof(arr[0])` is `w`, and their quotient is
`n`; for `arr1` the quotient, and the `size` initialised from it, is 5. -/
theorem elementCount_eq_declared_length (w : Nat) (arr : List Int) (hw : 0 < w) :
    sizeofArray w arr = arr.length * w ∧
    sizeofElem w arr = w ∧
    elementCount w arr = arr.length ∧
    elementCount sizeofInt arr1 = 5 ∧
    size arr1 = 5 := by
  refine ⟨rfl, rfl, elementCount_pos_width w arr hw, by decide, by decide⟩

theorem elementCount_eq_declared_length_witness :
    0 < 8 ∧ elementCount 8 [3, 1, 4, 1, 5, 9, 2] = 7 :=
  ⟨by decide, (elementCount_eq_declared_length 8 [3, 1, 4, 1, 5, 9, 2] (by decide)).2.2.1⟩

/-- C8: when `size` is the declared length, neither traversal ever reaches an
undefined read or pointer, whatever the fuel; a traversal that finishes has read
through the offsets `0 .. length - 1` only, each inside the sequence, and stops
with its cursor on the sentinel one past the last element, a position it compared
against and never read through (a read there would be undefined); with more fuel
than elements both finish. -/
theorem traversals_stay_in_bounds (arr : List Int) (sz : Int) (fuel : Nat)
    (out : List Int) (hsz : sz = (arr.length : Int)) :
    way1Loop arr sz fuel (LoopState.enter 0 out) ≠ .undefined ∧
    way2Loop arr fuel (LoopState.enter (arrBegin arr) out) ≠ .undefined ∧
    ptrAdd arr 0 sz = some (arrEnd arr) ∧
    deref arr (arrEnd arr) = none ∧
    (∀ s, way1Loop arr sz fuel (LoopState.enter 0 out) = .done s ∨
          way2Loop arr fuel (LoopState.enter (arrBegin arr) out) = .done s →
      s.cursor = arrEnd arr ∧
      s.derefs = List.range arr.length ∧
      (∀ i ∈ s.derefs, i < arr.length ∧ (deref arr i).isSome = true) ∧
      arrEnd arr ∉ s.derefs) ∧
    (arr.length < fuel →
      ∃ s, way1Loop arr sz fuel (LoopState.enter 0 out) = .done s ∧
        way2Loop arr fuel (LoopState.enter (arrBegin arr) out) = .done s) := by
  subst hsz
  have hfinal : ∀ s, s = LoopState.final arr out →
      s.cursor = arrEnd arr ∧
      s.derefs = List.range arr.length ∧
      (∀ i ∈ s.derefs, i < arr.length ∧ (deref arr i).isSome = true) ∧
      arrEnd arr ∉ s.derefs := by
    intro s hs
    subst hs
    refine ⟨rfl, rfl, ?_, ?_⟩
    · intro i hi
      have hlt : i < arr.length := range_lt _ i hi
      refine ⟨hlt, ?_⟩
      unfold deref
      rw [List.getElem?_eq_getElem hlt]
      rfl
    · intro hmem
      exact Nat.lt_irrefl _ (range_lt _ _ hmem)
  unfold arrBegin
  by_cases h : arr.length < fuel
  · rw [way1Loop_done arr out fuel h, way2Loop_done arr out fuel h]
    refine ⟨by simp, by simp, ptrAdd_base_length arr, ?_, ?_, fun _ => ⟨_, rfl, rfl⟩⟩
    · simp [deref, arrEnd]
    · intro s hs
      apply hfinal
      rcases hs with hs | hs <;> · injection hs with hs; exact hs.symm
  · rw [way1Loop_short arr out fuel (by omega), way2Loop_short arr out fuel (by omega)]
    refine ⟨by simp, by simp, ptrAdd_base_length arr, ?_, ?_, fun h' => absurd h' h⟩
    · simp [deref, arrEnd]
    · intro s hs
      rcases hs with hs | hs <;> cases hs

theorem traversals_stay_in_bounds_witness :
    way1Loop arr1 5 6 (LoopState.enter 0 []) ≠ .undefined ∧
    way2Loop arr1 6 (LoopState.enter (arrBegin arr1) []) ≠ .undefined ∧
    ((5 : Nat) = arrEnd arr1 ∧
      [0, 1, 2, 3, 4] = List.range arr1.length ∧
      (∀ i ∈ [0, 1, 2, 3, 4], i < arr1.length ∧ (deref arr1 i).isSome = true) ∧
      arrEnd arr1 ∉ [0, 1, 2, 3, 4]) ∧
    ∃ s, way1Loop arr1 5 6 (LoopState.enter 0 []) = .done s ∧
      way2Loop arr1 6 (LoopState.enter (arrBegin arr1) []) = .done s :=
  ⟨(traversals_stay_in_bounds arr1 5 6 [] (by decide)).1,
    (traversals_stay_in_bounds arr1 5 6 [] (by decide)).2.1,
    (traversals_stay_in_bounds arr1 5 6 [] (by decide)).2.2.2.2.1
      ⟨5, [1, 9, 5, 3, 4], [0, 1, 2, 3, 4], 5⟩ (Or.inl (by decide)),
    (traversals_stay_in_bounds arr1 5 6 [] (by decide)).2.2.2.2.2 (by decide)⟩

/-- C9, amended: over a sequence of length `n` at most `INT_MAX`, way 1 is,
after `k ≤ n` evaluations of its
condition, in the state with the cursor at offset `k`, the first `k` elements
emitted and `k` iterations done; the iteration entered there reads offset `k`,
emits element `k` and moves the cursor by one; with more than `n` units of fuel
the loop ends after exactly `n` iterations with the cursor one past the last
element and all elements emitted in order, and `n` units or fewer do not reach
the end; over the empty sequence it ends at once, emitting nothing. -/
theorem way1_terminates_after_length (arr : List Int) (out : List Int)
    (hfit : arr.length ≤ INT_MAX) :
    (∀ k f, k ≤ arr.length →
      way1 arr (k + f) out
        = way1Loop arr (size arr) f ⟨k, out ++ arr.take k, List.range k, k⟩) ∧
    (∀ i (hi : i < arr.length),
      bodyAndStep arr ⟨i, out ++ arr.take i, List.range i, i⟩
        = some ⟨i + 1, out ++ arr.take i ++ [arr[i]], List.range i ++ [i], i + 1⟩) ∧
    (∀ fuel, arr.length < fuel →
      way1 arr fuel out
        = .done ⟨arr.length, out ++ arr, List.range arr.length, arr.length⟩) ∧
    (∀ fuel, fuel ≤ arr.length → way1 arr fuel out = .outOfFuel) ∧
    (arr = [] → ∀ fuel, 0 < fuel → way1 arr fuel out = .done ⟨0, out, [], 0⟩) := by
  refine ⟨?_, ?_, ?_, ?_, ?_⟩
  · intro k f hk
    unfold way1
    rw [size_eq_length arr hfit,
      way1Loop_advance arr k f _ (by simp only [LoopState.enter]; omega), enter_advance]
  · intro i hi
    exact bodyAndStep_inside arr ⟨i, out ++ arr.take i, List.range i, i⟩ hi
  · intro fuel h
    exact way1_done arr out fuel hfit h
  · intro fuel h
    exact way1_short arr out fuel hfit h
  · intro hnil fuel h
    subst hnil
    rw [way1_done [] out fuel hfit h]
    simp [LoopState.final]

theorem way1_terminates_after_length_witness :
    arr1.length ≤ INT_MAX ∧
    way1 arr1 6 [] = .done ⟨5, [1, 9, 5, 3, 4], [0, 1, 2, 3, 4], 5⟩ ∧
    way1 arr1 5 [] = .outOfFuel ∧
    way1 arr1 (2 + 4) [] = way1Loop arr1 (size arr1) 4 ⟨2, [1, 9], [0, 1], 2⟩ ∧
    bodyAndStep arr1 ⟨2, [1, 9], [0, 1], 2⟩ = some ⟨3, [1, 9, 5], [0, 1, 2], 3⟩ ∧
    way1 [] 1 [] = .done ⟨0, [], [], 0⟩ :=
  ⟨by decide,
    (way1_terminates_after_length arr1 [] (by decide)).2.2.1 6 (by decide),
    (way1_terminates_after_length arr1 [] (by decide)).2.2.2.1 5 (by decide),
    (way1_terminates_after_length arr1 [] (by decide)).1 2 4 (by decide),
    (way1_terminates_after_length arr1 [] (by decide)).2.1 2 (by decide),
    (way1_terminates_after_length [] [] (by decide)).2.2.2.2 rfl 1 (by decide)⟩

/-- C9 as stated fails over a sequence of 2147483653 elements: `size` is then
-2147483643, and with fuel for 2147483653 iterations and the final test way 1
does not end after 2147483653 iterations with the elements emitted: it stops at
its first test, `arr + size` being a pointer before the array, with no iteration
done. -/
theorem way1_no_iteration_beyond_int_max :
    way1 (List.replicate 2147483653 0) (2147483653 + 1) []
      ≠ .done ⟨(List.replicate 2147483653 (0 : Int)).length,
          [] ++ List.replicate 2147483653 0,
          List.range (List.replicate 2147483653 (0 : Int)).length,
          (List.replicate 2147483653 (0 : Int)).length⟩ ∧
    ptrAdd (List.replicate 2147483653 0) 0 (size (List.replicate 2147483653 0)) = none ∧
    way1 (List.replicate 2147483653 0) (2147483653 + 1) [] = .undefined := by
  have hlen : (List.replicate 2147483653 (0 : Int)).length = 2147483653 :=
    List.length_replicate _ _
  have h1 : INT_MAX < (List.replicate 2147483653 (0 : Int)).length := by
    rw [hlen]
    decide
  have h2 : (List.replicate 2147483653 (0 : Int)).length < 4294967296 := by
    rw [hlen]
    decide
  have hw1 := way1_wrapped (List.replicate 2147483653 0) [] 2147483653 h1 h2
  refine ⟨?_, ?_, hw1⟩
  · rw [hw1]
    intro h
    cases h
  · have hneg : ((List.replicate 2147483653 (0 : Int)).length : Int) - 4294967296 < 0 := by
      omega
    rw [size_wrapped _ h1 h2]
    exact ptrAdd_base_negative _ _ hneg

end ArrayTraversalDemo

namespace PointerIndirectionDemo

/-! ## Memory -/

theorem store_of_load (s : State) (p : Ptr) (w v : Val) (h : load s p = some w) :
    ∃ cells, s.mem[p.block]? = some cells ∧ p.offset < cells.length ∧
      store s p v = some { s with mem := s.mem.set p.block (cells.set p.offset v) } := by
  unfold load at h
  cases hb : s.mem[p.block]? with
  | none => rw [hb] at h; cases h
  | some cells =>
    rw [hb] at h
    simp only at h
    obtain ⟨hlt, _⟩ := List.getElem?_eq_some.mp h
    refine ⟨cells, rfl, hlt, ?_⟩
    unfold store
    rw [hb]
    simp only
    rw [if_pos hlt]

theorem store_inv (s s' : State) (p : Ptr) (v : Val) (h : store s p v = some s') :
    ∃ cells, s.mem[p.block]? = some cells ∧ p.offset < cells.length ∧
      s' = { s with mem := s.mem.set p.block (cells.set p.offset v) } := by
  unfold store at h
  cases hb : s.mem[p.block]? with
  | none => rw [hb] at h; cases h
  | some cells =>
    rw [hb] at h
    simp only at h
    by_cases hlt : p.offset < cells.length
    · rw [if_pos hlt] at h
      exact ⟨cells, rfl, hlt, (Option.some.inj h).symm⟩
    · rw [if_neg hlt] at h
      cases h

theorem load_store_same (s s' : State) (p : Ptr) (v : Val) (h : store s p v = some s') :
    load s' p = some v := by
  obtain ⟨cells, hb, hlt, rfl⟩ := store_inv s s' p v h
  obtain ⟨hblt, _⟩ := List.getElem?_eq_some.mp hb
  unfold load
  simp only
  rw [List.getElem?_set_self hblt]
  simp only
  rw [List.getElem?_set_self hlt]

theorem load_store_other (s s' : State) (p q : Ptr) (v : Val)
    (h : store s p v = some s') (hne : q ≠ p) : load s' q = load s q := by
  obtain ⟨cells, hb, hlt, rfl⟩ := store_inv s s' p v h
  obtain ⟨hblt, _⟩ := List.getElem?_eq_some.mp hb
  unfold load
  simp only
  by_cases hblock : q.block = p.block
  · have hoff : p.offset ≠ q.offset := by
      intro ho
      apply hne
      cases p
      cases q
      simp only at hblock ho
      rw [hblock, ho]
    rw [hblock, List.getElem?_set_self hblt, hb]
    simp only
    rw [List.getElem?_set_ne hoff]
  · rw [List.getElem?_set_ne (fun e => hblock e.symm)]

theorem store_out (s s' : State) (p : Ptr) (v : Val) (h : store s p v = some s') :
    s'.out = s.out := by
  obtain ⟨cells, _, _, rfl⟩ := store_inv s s' p v h
  rfl

theorem store_again (s s' : State) (p : Ptr) (v : Val) (h : store s p v = some s') :
    store s' p v = some s' := by
  obtain ⟨cells, hb, hlt, rfl⟩ := store_inv s s' p v h
  obtain ⟨hblt, _⟩ := List.getElem?_eq_some.mp hb
  unfold store
  simp only
  rw [List.getElem?_set_self hblt]
  simp only
  rw [List.length_set, if_pos hlt, List.set_set, List.set_set]

theorem load_of_loadInt (s : State) (p : Ptr) (v : Int) (h : loadInt s p = some v) :
    load s p = some (.int v) := by
  unfold loadInt at h
  split at h
  · next w hw => rw [hw, Option.some.inj h]
  · cases h

theorem loadInt_of_load (s : State) (p : Ptr) (v : Int) (h : load s p = some (.int v)) :
    loadInt s p = some v := by
  unfold loadInt
  rw [h]

theorem getElem?_append_offset {α : Type} (l t : List α) (k : Nat) :
    (l ++ t)[l.length + k]? = t[k]? := by
  rw [List.getElem?_append_right (by omega)]
  congr 1
  omega

theorem set_append_offset {α : Type} (l t : List α) (k : Nat) (a : α) :
    (l ++ t).set (l.length + k) a = l ++ t.set k a := by
  rw [List.set_append]
  simp

/-- Reads from the objects allocated after those of `base`. -/
theorem load_local (base t : List (List Val)) (o : List Int) (k j : Nat) :
    load ⟨base ++ t, o⟩ ⟨base.length + k, j⟩ = (t[k]?).bind (fun cells => cells[j]?) := by
  unfold load
  simp only
  rw [getElem?_append_offset]
  cases t[k]? <;> rfl

theorem store_local (base t : List (List Val)) (o : List Int) (k j : Nat) (v : Val)
    (cells : List Val) (hk : t[k]? = some cells) (hj : j < cells.length) :
    store ⟨base ++ t, o⟩ ⟨base.length + k, j⟩ v
      = some ⟨base ++ t.set k (cells.set j v), o⟩ := by
  unfold store
  simp only
  rw [getElem?_append_offset, hk]
  simp only
  rw [if_pos hj, set_append_offset]

theorem ptrAdd_local_zero (base t : List (List Val)) (o : List Int) (k : Nat)
    (cells : List Val) (hk : t[k]? = some cells) :
    ptrAdd ⟨base ++ t, o⟩ ⟨base.length + k, 0⟩ 0 = some ⟨base.length + k, 0⟩ := by
  unfold ptrAdd
  simp only
  rw [getElem?_append_offset, hk]
  simp

theorem leave_local (base t : List (List Val)) (o : List Int) :
    leave base.length ⟨base ++ t, o⟩ = ⟨base, o⟩ := by
  unfold leave
  simp

/-! ## The function `seePointer` -/

theorem seePointerLocals_eq (s : State) :
    seePointerLocals s =
      (⟨⟨s.mem.length + 0, 0⟩, ⟨s.mem.length + 1, 0⟩, ⟨s.mem.length + 2, 0⟩,
          ⟨s.mem.length + 3, 0⟩⟩,
        ⟨s.mem ++ [[.int 10], [.ptr ⟨s.mem.length + 0, 0⟩], [.ptr ⟨s.mem.length + 1, 0⟩],
            [.ptr ⟨s.mem.length + 2, 0⟩]], s.out⟩) := by
  simp [seePointerLocals, alloc]

/-- State of `seePointer` once `***r = 20` is done. -/
theorem seePointerAssign_eq (s : State) :
    seePointerAssign (seePointerLocals s).1 (seePointerLocals s).2 =
      some ⟨s.mem ++ [[.int 20], [.ptr ⟨s.mem.length + 0, 0⟩], [.ptr ⟨s.mem.length + 1, 0⟩],
            [.ptr ⟨s.mem.length + 2, 0⟩]], s.out⟩ := by
  rw [seePointerLocals_eq]
  simp only [seePointerAssign, deref3, loadPtr, load_local, List.getElem?_cons_succ,
    List.getElem?_cons_zero, Option.some_bind]
  rw [store_local _ _ _ 0 0 _ [.int 10] rfl (by decide)]
  rfl

theorem seePointer_eq (s : State) : seePointer s = some ⟨s.mem, s.out ++ [20]⟩ := by
  unfold seePointer
  have h := seePointerAssign_eq s
  rw [seePointerLocals_eq] at h ⊢
  simp only at h ⊢
  rw [h]
  simp only [Option.some_bind, seePointerPrint, deref3, loadPtr, loadInt, load_local,
    List.getElem?_cons_succ, List.getElem?_cons_zero, Option.map_some', emit, leave_local]

/-! ## The function `seeArrays` -/

theorem seeArraysLocals_eq (s : State) :
    seeArraysLocals s =
      ((⟨s.mem.length + 0, 0⟩, ⟨s.mem.length + 1, 0⟩),
        ⟨s.mem ++ [[.int 1, .int 2, .int 3, .int 4, .int 5], [.undef]], s.out⟩) := by
  simp [seeArraysLocals, alloc]

/-- Printing `*(arr + 0)` once the cell of `p` holds `v`, whatever `v` is. -/
theorem seeArraysPrint_local (base : List (List Val)) (o : List Int) (v : Val) :
    seeArraysPrint ⟨base.length + 0, 0⟩
        ⟨base ++ [[.int 1, .int 2, .int 3, .int 4, .int 5], [v]], o⟩
      = some ⟨base ++ [[.int 1, .int 2, .int 3, .int 4, .int 5], [v]], o ++ [1]⟩ := by
  unfold seeArraysPrint
  rw [ptrAdd_local_zero base _ o 0 [.int 1, .int 2, .int 3, .int 4, .int 5] rfl]
  simp only [Option.some_bind, loadInt, load_local, List.getElem?_cons_zero,
    Option.map_some', emit]

theorem seeArraysAssign_local (base : List (List Val)) (o : List Int) :
    seeArraysAssign ⟨base.length + 0, 0⟩ ⟨base.length + 1, 0⟩
        ⟨base ++ [[.int 1, .int 2, .int 3, .int 4, .int 5], [.undef]], o⟩
      = some ⟨base ++ [[.int 1, .int 2, .int 3, .int 4, .int 5],
          [.ptr ⟨base.length + 0, 0⟩]], o⟩ := by
  unfold seeArraysAssign
  rw [ptrAdd_local_zero base _ o 0 [.int 1, .int 2, .int 3, .int 4, .int 5] rfl]
  simp only [Option.some_bind]
  rw [store_local base _ o 1 0 _ [.undef] rfl (by decide)]
  rfl

theorem seeArrays_eq (s : State) : seeArrays s = some ⟨s.mem, s.out ++ [1]⟩ := by
  unfold seeArrays
  rw [seeArraysLocals_eq]
  simp only
  rw [seeArraysAssign_local, Option.some_bind, seeArraysPrint_local, Option.map_some',
    leave_local]

/-! ## Properties of the specification -/

/-- C6: in `seePointer`, from any state, `x` reads 10 once the locals are set up;
`***r = 20` succeeds, and after it `x`, `*p`, `**q` and `***r` all read 20, the
locations `*p`, `**q` and `***r` being the one location of `x`; the function then
ends having emitted the single line 20 and released its locals. -/
theorem seePointer_roundtrip (s : State) :
    ∃ s2,
      seePointerAssign (seePointerLocals s).1 (seePointerLocals s).2 = some s2 ∧
      loadInt (seePointerLocals s).2 (seePointerLocals s).1.x = some 10 ∧
      loadInt s2 (seePointerLocals s).1.x = some 20 ∧
      (deref1 s2 (seePointerLocals s).1.p).bind (loadInt s2) = some 20 ∧
      (deref2 s2 (seePointerLocals s).1.q).bind (loadInt s2) = some 20 ∧
      (deref3 s2 (seePointerLocals s).1.r).bind (loadInt s2) = some 20 ∧
      deref1 s2 (seePointerLocals s).1.p = some (seePointerLocals s).1.x ∧
      deref2 s2 (seePointerLocals s).1.q = some (seePointerLocals s).1.x ∧
      deref3 s2 (seePointerLocals s).1.r = some (seePointerLocals s).1.x ∧
      seePointer s = some ⟨s.mem, s.out ++ [20]⟩ := by
  refine ⟨_, seePointerAssign_eq s, ?_⟩
  rw [seePointerLocals_eq]
  simp only [deref1, deref2, deref3, loadPtr, loadInt, load_local,
    List.getElem?_cons_succ, List.getElem?_cons_zero, Option.some_bind, seePointer_eq,
    and_self]

/-- C7: from any state `seeArrays` succeeds and emits exactly one line, 1, the
first element of its sequence 1, 2, 3, 4, 5: `arr + 0` is the first element of
`arr` and `*(arr + 0)` reads `arr[0]`; the line is the same before `p = &arr[0]`,
after it, and whatever else is assigned to `p`. -/
theorem seeArrays_emits_first (s : State) :
    seeArrays s = some ⟨s.mem, s.out ++ [1]⟩ ∧
    ptrAdd (seeArraysLocals s).2 (seeArraysLocals s).1.1 0 = some (seeArraysLocals s).1.1 ∧
    (ptrAdd (seeArraysLocals s).2 (seeArraysLocals s).1.1 0).bind
        (loadInt (seeArraysLocals s).2) = ([1, 2, 3, 4, 5] : List Int)[0]? ∧
    (seeArraysPrint (seeArraysLocals s).1.1 (seeArraysLocals s).2).map (fun t => t.out)
      = some (s.out ++ [1]) ∧
    ((seeArraysAssign (seeArraysLocals s).1.1 (seeArraysLocals s).1.2
        (seeArraysLocals s).2).bind
        (seeArraysPrint (seeArraysLocals s).1.1)).map (fun t => t.out)
      = some (s.out ++ [1]) ∧
    (∀ v, ((store (seeArraysLocals s).2 (seeArraysLocals s).1.2 v).bind
        (seeArraysPrint (seeArraysLocals s).1.1)).map (fun t => t.out)
      = some (s.out ++ [1])) := by
  refine ⟨seeArrays_eq s, ?_⟩
  rw [seeArraysLocals_eq]
  simp only
  refine ⟨?_, ?_, ?_, ?_, ?_⟩
  · exact ptrAdd_local_zero s.mem _ s.out 0 _ rfl
  · rw [ptrAdd_local_zero s.mem _ s.out 0 _ rfl]
    simp only [Option.some_bind, loadInt, load_local, List.getElem?_cons_zero]
  · rw [seeArraysPrint_local]
    rfl
  · rw [seeArraysAssign_local, Option.some_bind, seeArraysPrint_local]
    rfl
  · intro v
    rw [store_local s.mem _ s.out 1 0 v [.undef] rfl (by decide)]
    simp only [List.set_cons_succ, List.set_cons_zero, Option.some_bind]
    rw [seeArraysPrint_local]
    rfl

/-- C2: the program `pointers/pointers.cpp` ends with status 0 and its standard
output is the two lines 100 and 1; 20, the line `seePointer` would emit, is not
among them. -/
theorem pointer_main_output :
    main = some (0, [100, 1]) ∧
    render [100, 1] = "100\n1\n" ∧
    (20 : Int) ∉ ([100, 1] : List Int) ∧
    (seePointer State.init).map (fun t => t.out) = some [20] := by
  refine ⟨by decide, by decide, by decide, by decide⟩

/-- C3: whatever integer `V` the location passed to `callByReference` holds, the
call succeeds and the location then holds 100; in `main` the location is that
of `a`, which holds 1 before the call and 100, the value printed, after it. -/
theorem callByReference_sets_100 (s : State) (a : Ptr) (V : Int)
    (h : loadInt s a = some V) :
    (∃ s', callByReference a s = some s' ∧ loadInt s' a = some 100) ∧
    loadInt (alloc [.int 1] State.init).2 (alloc [.int 1] State.init).1 = some 1 ∧
    (callByReference (alloc [.int 1] State.init).1 (alloc [.int 1] State.init).2).bind
        (fun s' => loadInt s' (alloc [.int 1] State.init).1) = some 100 := by
  refine ⟨?_, by decide, by decide⟩
  obtain ⟨cells, _, _, hst⟩ := store_of_load s a (.int V) (.int 100) (load_of_loadInt s a V h)
  exact ⟨_, hst, loadInt_of_load _ a 100 (load_store_same s _ a (.int 100) hst)⟩

theorem callByReference_sets_100_witness :
    loadInt ⟨[[.int 7, .int (-3)]], []⟩ ⟨0, 1⟩ = some (-3) ∧
    ∃ s', callByReference ⟨0, 1⟩ ⟨[[.int 7, .int (-3)]], []⟩ = some s' ∧
      loadInt s' ⟨0, 1⟩ = some 100 :=
  ⟨by decide,
    (callByReference_sets_100 ⟨[[.int 7, .int (-3)]], []⟩ ⟨0, 1⟩ (-3) (by decide)).1⟩

/-- C10: when location `a` holds a value, `callByReference(a)` succeeds; every
location other than `a` holds afterwards what it held before, the standard
output is unchanged, and a second call on `a` leaves the state of the first. -/
theorem callByReference_frame (s : State) (a : Ptr) (w : Val) (h : load s a = some w) :
    ∃ s', callByReference a s = some s' ∧
      (∀ b, b ≠ a → load s' b = load s b) ∧
      s'.out = s.out ∧
      callByReference a s' = some s' ∧
      (callByReference a s).bind (callByReference a) = callByReference a s := by
  obtain ⟨cells, _, _, hst⟩ := store_of_load s a w (.int 100) h
  refine ⟨_, hst, ?_, ?_, ?_, ?_⟩
  · intro b hb
    exact load_store_other s _ a b (.int 100) hst hb
  · exact store_out s _ a (.int 100) hst
  · exact store_again s _ a (.int 100) hst
  · unfold callByReference
    rw [hst, Option.some_bind]
    exact store_again s _ a (.int 100) hst

theorem callByReference_frame_witness :
    load ⟨[[.int 7, .int (-3)], [.ptr ⟨0, 0⟩]], [4]⟩ ⟨0, 1⟩ = some (.int (-3)) ∧
    ∃ s', callByReference ⟨0, 1⟩ ⟨[[.int 7, .int (-3)], [.ptr ⟨0, 0⟩]], [4]⟩ = some s' ∧
      (∀ b, b ≠ ⟨0, 1⟩ →
        load s' b = load ⟨[[.int 7, .int (-3)], [.ptr ⟨0, 0⟩]], [4]⟩ b) ∧
      s'.out = [4] ∧
      callByReference ⟨0, 1⟩ s' = some s' :=
  ⟨by decide,
    (callByReference_frame ⟨[[.int 7, .int (-3)], [.ptr ⟨0, 0⟩]], [4]⟩ ⟨0, 1⟩ (.int (-3))
      (by decide)).imp (fun _ hs => ⟨hs.1, hs.2.1, hs.2.2.1, hs.2.2.2.1⟩)⟩

end PointerIndirectionDemo
